import Mathlib

/-!
Verification of LAN-SHELL (`server.js`) against its natural-language
specification.  JavaScript strings are embedded as `List Char`; the
path-handling, archive-safety, terminal-session, git-safety, upload and
file-write logic of the server is translated into executable Lean
definitions, and the spec's claims are settled as theorems about them.
-/

/-- JavaScript strings are modelled as lists of characters. -/
abbrev JStr := List Char

/-- Split a path string at `'/'` separators (`p.split('/')` in the source). -/
def splitSlash : JStr → List JStr
  | [] => [[]]
  | c :: rest =>
    if c = '/' then [] :: splitSlash rest
    else
      match splitSlash rest with
      | [] => [[c]]
      | s :: ss => (c :: s) :: ss

/-- Join path segments with `'/'` separators. -/
def joinSegs : List JStr → JStr
  | [] => []
  | [s] => s
  | s :: rest => s ++ '/' :: joinSegs rest

/-- One step of Node `path.normalize` segment processing for an absolute
path: empty and `.` segments are dropped, `..` pops the previous segment
(and is dropped at the root), anything else is kept. -/
def normStep (acc : List JStr) (seg : JStr) : List JStr :=
  if seg = [] ∨ seg = ['.'] then acc
  else if seg = ['.', '.'] then acc.dropLast
  else acc ++ [seg]

/-- The canonical segment list of an absolute path string. -/
def canonSegs (p : JStr) : List JStr := (splitSlash p).foldl normStep []

/-- Rebuild an absolute path from canonical segments (`"/"` when empty). -/
def joinAbs (segs : List JStr) : JStr := '/' :: joinSegs segs

/-- Node `path.resolve` applied to a single absolute path: canonicalize. -/
def canonAbs (p : JStr) : JStr := joinAbs (canonSegs p)

/-- Does the string start with `'/'` (an absolute POSIX path)? -/
def startsWithSlash : JStr → Bool
  | '/' :: _ => true
  | _ => false

/-- Node `path.resolve(ROOT, p)`: an absolute `p` is canonicalized on its
own, a relative `p` is joined onto `ROOT` and canonicalized
(`server.js` lines 276, 309, 1396). -/
def jsResolve (root p : JStr) : JStr :=
  if startsWithSlash p then canonAbs p else canonAbs (root ++ '/' :: p)

/-- Model: `withinRoot` from `server.js` lines 157-160:
`path.resolve(targetPath).startsWith(path.resolve(ROOT))` — a plain
string-prefix test on the two canonicalized paths. -/
def withinRoot (root target : JStr) : Bool :=
  (canonAbs root).isPrefixOf (canonAbs target)

/-- Result of `resolvePathFromQuery` (`server.js` lines 307-312). -/
inductive ResolveResult
  | rejected (error : JStr)
  | resolved (target : JStr)
  deriving DecidableEq, Repr

/-- Did the resolution succeed? (`r.ok` in the source.) -/
def ResolveResult.isOk : ResolveResult → Bool
  | .resolved _ => true
  | .rejected _ => false

/-- Model: `resolvePathFromQuery` from `server.js` lines 307-312: resolve the
client path against `ROOT` and reject with the out-of-root error unless
`withinRoot` accepts the result. -/
def resolvePathFromQuery (root raw : JStr) : ResolveResult :=
  let target := jsResolve root raw
  if withinRoot root target then .resolved target else .rejected ("out of root".toList)

/-- The canonicalized form of a client path `p` resolved against the root:
this is exactly the value the source's prefix test inspects. -/
def canonicalTarget (root p : JStr) : JStr := canonAbs (jsResolve root p)

/-- Written from the spec's words ("the canonicalized result lies outside
the configured root"): the canonicalized target is inside the root when it
equals the canonical root or extends it past a `'/'` separator. -/
def specInsideRoot (root p : JStr) : Prop :=
  canonicalTarget root p = canonAbs root ∨
    (canonAbs root ++ ['/']) <+: canonicalTarget root p

instance (root p : JStr) : Decidable (specInsideRoot root p) := by
  unfold specInsideRoot; infer_instance

/-- Claim C1 as stated, at a given root and client path: acceptance holds
exactly when the canonicalized result lies inside the root. -/
def claimC1Stated (root p : JStr) : Prop :=
  (resolvePathFromQuery root p).isOk = true ↔ specInsideRoot root p

instance (root p : JStr) : Decidable (claimC1Stated root p) := by
  unfold claimC1Stated; infer_instance

/-- C1 counterexample: with root `/a/b`, the client path `../bc`
canonicalizes to `/a/bc`, which lies outside the root, yet the prefix
test `"/a/bc".startsWith("/a/b")` accepts it.  The stated equivalence is
therefore false. -/
theorem resolvePathFromQuery_prefix_collision :
    ¬ claimC1Stated "/a/b".toList "../bc".toList := by
  decide

/-- C1 (amended): every path whose canonicalized form lies inside the
root is accepted, and acceptance is exactly the string-prefix test — the
canonical root being a character prefix of the canonicalized target —
which also admits sibling directories whose name extends the root's last
segment (e.g. `/a/bc` under root `/a/b`). -/
theorem resolvePathFromQuery_prefix_acceptance (root p : JStr) :
    (specInsideRoot root p → (resolvePathFromQuery root p).isOk = true) ∧
      ((resolvePathFromQuery root p).isOk = true ↔
        canonAbs root <+: canonicalTarget root p) := by
  constructor
  · intro h
    have hpre : canonAbs root <+: canonicalTarget root p := by
      rcases h with h | h
      · exact h ▸ List.prefix_refl _
      · exact (List.prefix_append (canonAbs root) ['/']).trans h
    unfold resolvePathFromQuery withinRoot ResolveResult.isOk
    simp only [canonicalTarget] at hpre
    simp [ List.isPrefixOf_iff_prefix, hpre]
  · unfold resolvePathFromQuery withinRoot ResolveResult.isOk canonicalTarget
    by_cases hpre : canonAbs root <+: canonAbs (jsResolve root p) <;>
      simp [ List.isPrefixOf_iff_prefix, hpre]

/-- C1 amended-theorem witness: with root `/a/b`, the path `ok/x`
canonicalizes to `/a/b/ok/x`, inside the root, and is accepted. -/
theorem resolvePathFromQuery_prefix_acceptance_witness :
    specInsideRoot "/a/b".toList "ok/x".toList ∧
      (resolvePathFromQuery "/a/b".toList "ok/x".toList).isOk = true := by
  refine ⟨by decide, ?_⟩
  exact (resolvePathFromQuery_prefix_acceptance "/a/b".toList "ok/x".toList).1 (by decide)

/-- Strip leading `./` pairs from an archive entry
(the while-loop stripping leading dot-slash pairs in `normalizeEntryPath`,
`server.js` lines 225-231). -/
def stripDotSlash : JStr → JStr
  | '.' :: '/' :: rest => stripDotSlash rest
  | s => s

/-- Model: `normalizeEntryPath` from `server.js` lines 225-231: drop NUL bytes,
unify backslashes to `'/'`, strip leading `./`. -/
def normalizeEntryPath (entry : JStr) : JStr :=
  stripDotSlash ((entry.filter (· ≠ '\x00')).map (fun c => if c = '\\' then '/' else c))

/-- The drive-letter test `/^[a-zA-Z]:\//` from `isSafeArchiveEntry`. -/
def driveLetterTest : JStr → Bool
  | a :: ':' :: '/' :: _ => a.isAlpha
  | _ => false

/-- Model: `isSafeArchiveEntry` from `server.js` lines 233-243: the normalized
entry must be nonempty, not absolute, not a drive-letter path, and have
no `..` path segment. -/
def isSafeArchiveEntry (entry : JStr) : Bool :=
  let p := normalizeEntryPath entry
  if p = [] then false
  else if startsWithSlash p then false
  else if driveLetterTest p then false
  else if ((splitSlash p).filter (· ≠ ([] : JStr))).any (fun s => s = "..".toList) then false
  else true

/-- Written from the spec's words for `IsSafeEntry`: the normalized entry
is unsafe when it is empty, begins with `'/'`, matches a drive-letter
prefix, or contains a path segment equal to `..`. -/
def specUnsafeEntry (entry : JStr) : Prop :=
  normalizeEntryPath entry = [] ∨
    startsWithSlash (normalizeEntryPath entry) = true ∨
    driveLetterTest (normalizeEntryPath entry) = true ∨
    "..".toList ∈ splitSlash (normalizeEntryPath entry)

/-- Decision taken by `POST /api/archive/extract` after listing entries
(`server.js` lines 626-652). -/
inductive ExtractDecision
  | rejected (error : JStr)
  | extracted
  deriving DecidableEq, Repr

/-- The entry-safety gate of `POST /api/archive/extract`
(`server.js` lines 626-652): reject empty archives and oversized entry
lists, reject at the first unsafe entry, and only otherwise run the
external extraction tool. -/
def archiveExtractGuard (entries : List JStr) : ExtractDecision :=
  if entries.isEmpty then .rejected "empty archive".toList
  else if entries.length > 20000 then .rejected "too many entries".toList
  else
    match entries.find? (fun x => !isSafeArchiveEntry x) with
    | some bad => .rejected ("unsafe entry path: ".toList ++ bad)
    | none => .extracted

/-- C2: `isSafeArchiveEntry` rejects exactly the entries the spec calls
unsafe (empty, absolute, drive-letter, or containing a `..` segment),
and the extract endpoint runs the extraction tool only when every listed
entry is safe — the first unsafe entry (within the entry-count ceiling)
aborts the request with an `unsafe entry path` error. -/
theorem isSafeArchiveEntry_spec :
    (∀ e : JStr, isSafeArchiveEntry e = false ↔ specUnsafeEntry e) ∧
      (∀ entries : List JStr, archiveExtractGuard entries = .extracted →
        ∀ e ∈ entries, isSafeArchiveEntry e = true) ∧
      (∀ entries : List JStr, ∀ bad : JStr, entries.length ≤ 20000 →
        entries.find? (fun x => !isSafeArchiveEntry x) = some bad →
        archiveExtractGuard entries =
          .rejected ("unsafe entry path: ".toList ++ bad)) ∧
      (∀ entries : List JStr, (∃ e ∈ entries, isSafeArchiveEntry e = false) →
        archiveExtractGuard entries ≠ .extracted) := by
  have hchar : ∀ e : JStr, isSafeArchiveEntry e = false ↔ specUnsafeEntry e := by
    intro e
    unfold isSafeArchiveEntry specUnsafeEntry
    by_cases h1 : normalizeEntryPath e = [] <;>
      by_cases h2 : startsWithSlash (normalizeEntryPath e) = true <;>
        by_cases h3 : driveLetterTest (normalizeEntryPath e) = true <;>
          simp only [h1, h2, h3, if_true, if_false, Bool.not_eq_true] at * <;>
            simp [h1, h2, h3, List.any_eq_true, List.mem_filter]
  refine ⟨hchar, ?_, ?_, ?_⟩
  · intro entries hext e he
    unfold archiveExtractGuard at hext
    by_cases h0 : entries.isEmpty
    · simp [h0] at hext
    · by_cases h1 : entries.length > 20000
      · simp [h0, h1] at hext
      · simp only [h0, h1, if_false, ite_false] at hext
        rcases hfind : entries.find? (fun x => !isSafeArchiveEntry x) with _ | bad
        · have := List.find?_eq_none.mp hfind e he
          simpa using this
        · simp [hfind] at hext
  · intro entries bad hlen hfind
    have hne : entries.isEmpty = false := by
      cases entries with
      | nil => simp at hfind
      | cons a l => rfl
    unfold archiveExtractGuard
    simp [hne, Nat.not_lt.mpr hlen, hfind]
  · intro entries ⟨e, he, hbadentry⟩ hext
    unfold archiveExtractGuard at hext
    by_cases h0 : entries.isEmpty
    · simp [h0] at hext
    · by_cases h1 : entries.length > 20000
      · simp [h0, h1] at hext
      · simp only [h0, h1, if_false, ite_false] at hext
        rcases hfind : entries.find? (fun x => !isSafeArchiveEntry x) with _ | bad
        · have := List.find?_eq_none.mp hfind e he
          simp [hbadentry] at this
        · simp [hfind] at hext

/-- C2 witness: the spec's scenario — an archive containing
`../../etc/passwd` is rejected before extraction with an
`unsafe entry path` error. -/
theorem isSafeArchiveEntry_spec_witness :
    archiveExtractGuard ["../../etc/passwd".toList] =
      .rejected ("unsafe entry path: ".toList ++ "../../etc/passwd".toList) :=
  isSafeArchiveEntry_spec.2.2.1 ["../../etc/passwd".toList]
    "../../etc/passwd".toList (by decide) (by decide)

/-- The screen-clear control sequence `ESC[3J`. -/
def esc3J : JStr := ['\x1b', '[', '3', 'J']

/-- Model: `filterHistoryForReplay` from `server.js` lines 165-173: a single
left-to-right pass removing each occurrence of `ESC[3J`
(`data.replace(/\x1b\[3J/g, '')`). -/
def filterHistoryForReplay : JStr → JStr
  | '\x1b' :: '[' :: '3' :: 'J' :: rest => filterHistoryForReplay rest
  | c :: rest => c :: filterHistoryForReplay rest
  | [] => []

/-- Index of the first `'\n'` in a string, if any. -/
def firstNl : JStr → Option Nat
  | [] => none
  | c :: rest => if c = '\n' then some 0 else (firstNl rest).map (· + 1)

/-- Model: `s.indexOf('\n', start)` from the source, as an absolute index. -/
def firstNlFrom (s : JStr) (start : Nat) : Option Nat :=
  (firstNl (s.drop start)).map (· + start)

/-- Model: `trimHistoryForReplay` from `server.js` lines 175-183: keep the last
`maxChars` characters, advancing the cut to just past the next newline
when that newline is not the final character. -/
def trimHistoryForReplay (maxChars : Nat) (s : JStr) : JStr :=
  if s.length ≤ maxChars then s
  else
    match firstNlFrom s (s.length - maxChars) with
    | some nl => if nl + 1 < s.length then s.drop (nl + 1) else s.drop (s.length - maxChars)
    | none => s.drop (s.length - maxChars)

/-- The `shell.onData` history update (`server.js` line 1472):
`session.history = trimHistoryForReplay(session.history + filterHistoryForReplay(data))`. -/
def shellOnDataHistory (maxChars : Nat) (old data : JStr) : JStr :=
  trimHistoryForReplay maxChars (old ++ filterHistoryForReplay data)

/-- Model: `i` is the first newline position of `s` at or after `start`. -/
def firstNlSpec (s : JStr) (start i : Nat) : Prop :=
  start ≤ i ∧ i < s.length ∧ s.getD i ' ' = '\n' ∧
    ∀ j < i, start ≤ j → s.getD j ' ' ≠ '\n'

instance (s : JStr) (start i : Nat) : Decidable (firstNlSpec s start i) := by
  unfold firstNlSpec; infer_instance

theorem firstNl_eq_some_spec (s : JStr) (i : Nat) (h : firstNl s = some i) :
    i < s.length ∧ s.getD i ' ' = '\n' ∧ ∀ j < i, s.getD j ' ' ≠ '\n' := by
  induction s generalizing i with
  | nil => simp [firstNl] at h
  | cons c rest ih =>
    by_cases hc : c = '\n'
    · subst hc
      rw [firstNl, if_pos rfl] at h
      obtain rfl : i = 0 := (Option.some.inj h).symm
      exact ⟨by simp, by simp, fun j hj => absurd hj (by omega)⟩
    · rw [firstNl, if_neg hc, Option.map_eq_some'] at h
      obtain ⟨k, hk, rfl⟩ := h
      obtain ⟨h1, h2, h3⟩ := ih k hk
      refine ⟨by simpa using h1, by simpa using h2, ?_⟩
      intro j hj
      match j with
      | 0 => simpa using hc
      | m + 1 =>
        have := h3 m (by omega)
        simpa using this

theorem firstNl_eq_none_spec (s : JStr) (h : firstNl s = none) :
    ∀ j < s.length, s.getD j ' ' ≠ '\n' := by
  induction s with
  | nil => intro j hj; simp at hj
  | cons c rest ih =>
    by_cases hc : c = '\n'
    · subst hc
      rw [firstNl, if_pos rfl] at h
      exact absurd h (by simp)
    · rw [firstNl, if_neg hc, Option.map_eq_none'] at h
      intro j hj
      match j with
      | 0 => simpa using hc
      | m + 1 =>
        have := ih h m (by simpa using hj)
        simpa using this

theorem getD_drop_eq (s : JStr) (n j : Nat) :
    (s.drop n).getD j ' ' = s.getD (n + j) ' ' := by
  simp [List.getD, List.getElem?_drop]

theorem firstNlFrom_eq_some_of_spec (s : JStr) (start i : Nat)
    (hspec : firstNlSpec s start i) : firstNlFrom s start = some i := by
  obtain ⟨h1, h2, h3, h4⟩ := hspec
  unfold firstNlFrom
  rcases hf : firstNl (s.drop start) with _ | k
  · exfalso
    have hlen : i - start < (s.drop start).length := by
      simp [List.length_drop]; omega
    have := firstNl_eq_none_spec _ hf (i - start) hlen
    rw [getD_drop_eq] at this
    have heq : start + (i - start) = i := by omega
    rw [heq] at this
    exact this h3
  · obtain ⟨hk1, hk2, hk3⟩ := firstNl_eq_some_spec _ _ hf
    rw [getD_drop_eq] at hk2
    have : start + k = i := by
      rcases Nat.lt_trichotomy (start + k) i with h | h | h
      · exact absurd hk2 (h4 _ h (by omega))
      · exact h
      · exfalso
        have hlt : i - start < k := by omega
        have := hk3 (i - start) hlt
        rw [getD_drop_eq] at this
        have heq : start + (i - start) = i := by omega
        rw [heq] at this
        exact this h3
    simp [this, Nat.add_comm]

theorem firstNlFrom_eq_none_of_noNl (s : JStr) (start : Nat)
    (hno : ∀ j < s.length, start ≤ j → s.getD j ' ' ≠ '\n') :
    firstNlFrom s start = none := by
  unfold firstNlFrom
  rcases hf : firstNl (s.drop start) with _ | k
  · rfl
  · exfalso
    obtain ⟨hk1, hk2, _⟩ := firstNl_eq_some_spec _ _ hf
    rw [getD_drop_eq] at hk2
    have hjlen : start + k < s.length := by
      simp [List.length_drop] at hk1; omega
    exact hno (start + k) hjlen (by omega) hk2

theorem trimHistoryForReplay_length_le (maxChars : Nat) (s : JStr) :
    (trimHistoryForReplay maxChars s).length ≤ maxChars := by
  unfold trimHistoryForReplay
  by_cases h : s.length ≤ maxChars
  · simp [h]
  · push_neg at h
    rcases hf : firstNlFrom s (s.length - maxChars) with _ | nl
    · simp only [Nat.not_le.mpr h, if_false, ite_false, hf, List.length_drop]
      omega
    · have hge : s.length - maxChars ≤ nl := by
        unfold firstNlFrom at hf
        rcases hg : firstNl (s.drop (s.length - maxChars)) with _ | k
        · simp [hg] at hf
        · simp only [hg, Option.map_some', Option.some.injEq] at hf
          omega
      by_cases hlt : nl + 1 < s.length
      · simp only [Nat.not_le.mpr h, if_false, ite_false, hf, hlt, if_true,
          ite_true, List.length_drop]
        omega
      · simp only [Nat.not_le.mpr h, if_false, ite_false, hf, hlt,
          List.length_drop]
        omega

theorem trimHistoryForReplay_suffix (maxChars : Nat) (s : JStr) :
    trimHistoryForReplay maxChars s <:+ s := by
  unfold trimHistoryForReplay
  by_cases h : s.length ≤ maxChars
  · simp [h]
  · rcases hf : firstNlFrom s (s.length - maxChars) with _ | nl
    · simp [h, hf]
      exact List.drop_suffix _ _
    · by_cases hlt : nl + 1 < s.length <;>
        simp [h, hf, hlt] <;> exact List.drop_suffix _ _

theorem trimHistoryForReplay_cut (maxChars : Nat) (s : JStr) (i : Nat)
    (hlen : maxChars < s.length)
    (hspec : firstNlSpec s (s.length - maxChars) i) :
    trimHistoryForReplay maxChars s =
      if i + 1 < s.length then s.drop (i + 1) else s.drop (s.length - maxChars) := by
  have hf := firstNlFrom_eq_some_of_spec s (s.length - maxChars) i hspec
  unfold trimHistoryForReplay
  simp [Nat.not_le.mpr hlen, hf]

theorem trimHistoryForReplay_noNl (maxChars : Nat) (s : JStr)
    (hlen : maxChars < s.length)
    (hno : ∀ j < s.length, s.length - maxChars ≤ j → s.getD j ' ' ≠ '\n') :
    trimHistoryForReplay maxChars s = s.drop (s.length - maxChars) := by
  have hf := firstNlFrom_eq_none_of_noNl s (s.length - maxChars) hno
  unfold trimHistoryForReplay
  simp [Nat.not_le.mpr hlen, hf]

theorem filterHistoryForReplay_consume (rest : JStr) :
    filterHistoryForReplay (esc3J ++ rest) = filterHistoryForReplay rest := rfl

theorem filterHistoryForReplay_of_not_infix (l : JStr)
    (h : ¬ esc3J <:+: l) : filterHistoryForReplay l = l := by
  induction l using filterHistoryForReplay.induct with
  | case1 rest _ =>
    exfalso
    exact h ⟨[], rest, by simp [esc3J]⟩
  | case2 c rest hne ih =>
    have : ¬ esc3J <:+: rest := fun hin => h (List.infix_cons hin)
    rw [filterHistoryForReplay]
    · rw [ih this]
    · exact hne
  | case3 => rfl

/-- Claim C7 as stated, at a given ceiling and append step: the buffer
stays within the ceiling, the stored history is a suffix of the
accumulated filtered output, and whenever a line boundary exists at or
after `length - ceiling` the cut point is advanced to just past it. -/
def claimC7Stated (maxChars : Nat) (old data : JStr) : Prop :=
  (shellOnDataHistory maxChars old data).length ≤ maxChars ∧
    shellOnDataHistory maxChars old data <:+ (old ++ filterHistoryForReplay data) ∧
    (maxChars < (old ++ filterHistoryForReplay data).length →
      ∀ i < (old ++ filterHistoryForReplay data).length,
        firstNlSpec (old ++ filterHistoryForReplay data)
          ((old ++ filterHistoryForReplay data).length - maxChars) i →
        shellOnDataHistory maxChars old data =
          (old ++ filterHistoryForReplay data).drop (i + 1))

instance (maxChars : Nat) (old data : JStr) :
    Decidable (claimC7Stated maxChars old data) := by
  unfold claimC7Stated; infer_instance

/-- C7 counterexample: with ceiling 2, appending `"c\n"` to history
`"ab"` gives `"abc\n"`; the first line boundary at or after the cut base
(index 2) is the final character (index 3), and the code does **not**
advance the cut past it (that would empty the buffer) — it keeps
`"c\n"`, not `drop 4 = ""`.  So the cut point is not always advanced to
just past the next line boundary when one exists. -/
theorem shellOnDataHistory_final_newline_not_advanced :
    ¬ claimC7Stated 2 "ab".toList "c\n".toList := by
  decide

/-- C7 (amended): after every append the replay buffer length never
exceeds the ceiling; the stored history is a suffix of the accumulated
filtered output (trimming removes only a prefix); the cut point is
advanced to just past the first line boundary at or after
`length - ceiling` whenever that boundary is not the final character
(when it is the final character, or no boundary exists there, the cut
stays at `length - ceiling`); and PTY output is appended only after the
single-pass removal of `ESC[3J` sequences (which leaves sequence-free
output untouched and consumes a leading sequence). -/
theorem shellOnDataHistory_replay_invariants (maxChars : Nat) (old data : JStr) :
    (shellOnDataHistory maxChars old data).length ≤ maxChars ∧
      shellOnDataHistory maxChars old data <:+ (old ++ filterHistoryForReplay data) ∧
      (∀ acc : JStr, old <:+ acc →
        shellOnDataHistory maxChars old data <:+ (acc ++ filterHistoryForReplay data)) ∧
      (∀ i : Nat, maxChars < (old ++ filterHistoryForReplay data).length →
        firstNlSpec (old ++ filterHistoryForReplay data)
          ((old ++ filterHistoryForReplay data).length - maxChars) i →
        shellOnDataHistory maxChars old data =
          if i + 1 < (old ++ filterHistoryForReplay data).length then
            (old ++ filterHistoryForReplay data).drop (i + 1)
          else
            (old ++ filterHistoryForReplay data).drop
              ((old ++ filterHistoryForReplay data).length - maxChars)) ∧
      (¬ esc3J <:+: data → filterHistoryForReplay data = data) ∧
      (∀ rest : JStr, filterHistoryForReplay (esc3J ++ rest) = filterHistoryForReplay rest) := by
  refine ⟨trimHistoryForReplay_length_le _ _, trimHistoryForReplay_suffix _ _, ?_, ?_, ?_, ?_⟩
  · intro acc ⟨t, ht⟩
    refine (trimHistoryForReplay_suffix maxChars _).trans ?_
    refine ⟨t, ?_⟩
    rw [← ht]
    simp
  · intro i hlen hspec
    exact trimHistoryForReplay_cut maxChars _ i hlen hspec
  · exact filterHistoryForReplay_of_not_infix data
  · exact filterHistoryForReplay_consume

/-- C7 amended-theorem witness: ceiling 3, history `"ab\nc"`, new output
`"d"` (no clear sequence): the buffer becomes `"cd"`, cut just past the
newline at index 2. -/
theorem shellOnDataHistory_replay_invariants_witness :
    shellOnDataHistory 3 "ab\nc".toList "d".toList = "cd".toList ∧
      filterHistoryForReplay "d".toList = "d".toList := by
  have h := shellOnDataHistory_replay_invariants 3 "ab\nc".toList "d".toList
  constructor
  · have hc := h.2.2.2.1 2 (by decide) (by decide)
    simpa using hc
  · exact h.2.2.2.2.1 (by decide)

/-- A terminal session as stored in `terminalSessions`
(`server.js` lines 1450-1461). -/
structure WsSession where
  id : JStr
  clientId : JStr
  cwd : JStr
  cols : Nat
  rows : Nat
  history : JStr
  sockets : List Nat
  deriving DecidableEq, Repr

/-- Model: `terminalSessions.get(sessionId)` over the registry list. -/
def findSession (sessions : List WsSession) (sid : JStr) : Option WsSession :=
  sessions.find? (fun s => s.id == sid)

/-- In-place mutation of the stored session object, as a registry map. -/
def updateSession (sessions : List WsSession) (s : WsSession) : List WsSession :=
  sessions.map (fun t => if t.id = s.id then s else t)

/-- What the connection handler does to the connecting socket and the
registry: messages sent to this socket (in order), whether the socket
was closed, the registry afterwards, and the id of any session created. -/
structure WsOutcome where
  sent : List JStr
  closed : Bool
  sessions : List WsSession
  createdId : Option JStr
  deriving DecidableEq, Repr

/-- Model: `SESSION_NOT_FOUND:<id>` control message (`server.js` line 1431). -/
def notFoundMsg (sid : JStr) : JStr := "SESSION_NOT_FOUND:".toList ++ sid

/-- Model: `SESSION_FORBIDDEN:<id>` control message (`server.js` line 1413). -/
def forbiddenMsg (sid : JStr) : JStr := "SESSION_FORBIDDEN:".toList ++ sid

/-- Model: `SESSION_ID:<id>` control message (`server.js` lines 1424, 1468). -/
def sessionIdMsg (sid : JStr) : JStr := "SESSION_ID:".toList ++ sid

/-- The xterm title frame sent on session creation (`server.js` line 1467). -/
def titleMsg (sid : JStr) : JStr := "\x1b]0;Session: ".toList ++ sid ++ ['\x07']

/-- Fuel-driven core of `sendWsTextInChunks` with the source's 16 KiB
chunk size (`server.js` lines 185-195); the fuel is an upper bound on
the string length, so the recursion is structural and computable. -/
def chunksGo : Nat → JStr → List JStr
  | _, [] => []
  | 0, s => [s]
  | fuel + 1, c :: rest => (c :: rest.take 16383) :: chunksGo fuel (rest.drop 16383)

/-- Model: `sendWsTextInChunks(ws, text)`: the sequence of 16 KiB frames the
replay buffer is cut into. -/
def chunksOf16k (s : JStr) : List JStr := chunksGo s.length s

theorem chunksGo_spec (fuel : Nat) :
    ∀ s : JStr, s.length ≤ fuel →
      (chunksGo fuel s).flatten = s ∧
        ∀ c ∈ chunksGo fuel s, c ≠ [] ∧ c.length ≤ 16384 := by
  induction fuel with
  | zero =>
    intro s hs
    have : s = [] := List.length_eq_zero.mp (Nat.le_zero.mp hs)
    subst this
    exact ⟨rfl, by simp [chunksGo]⟩
  | succ fuel ih =>
    intro s hs
    match s with
    | [] => exact ⟨rfl, by simp [chunksGo]⟩
    | c :: rest =>
      have hlen : (rest.drop 16383).length ≤ fuel := by
        simp only [List.length_drop]
        simp only [List.length_cons] at hs
        omega
      obtain ⟨hflat, hbound⟩ := ih (rest.drop 16383) hlen
      constructor
      · simp only [chunksGo, List.flatten_cons, hflat, List.cons_append]
        rw [List.take_append_drop]
      · intro ch hch
        simp only [chunksGo, List.mem_cons] at hch
        rcases hch with rfl | hch
        · refine ⟨by simp, ?_⟩
          have := List.length_take_le 16383 rest
          simp only [List.length_cons]
          omega
        · exact hbound ch hch

/-- Rejection / attach decision for a known session, after the optional
clientId adoption has produced `s1` (`server.js` lines 1410-1424). -/
def wsAttachOwned (sessions : List WsSession) (sid : JStr) (clientId : JStr)
    (sock : Nat) (s1 : WsSession) : WsOutcome :=
  if clientId ≠ [] ∧ s1.clientId ≠ [] ∧ s1.clientId ≠ clientId then
    ⟨[forbiddenMsg sid], true, sessions, none⟩
  else
    ⟨chunksOf16k s1.history ++ [sessionIdMsg s1.id], false,
      updateSession sessions { s1 with sockets := s1.sockets ++ [sock] }, none⟩

/-- Handling of a reconnect to a known session: adopt the client id when
the session has no owner yet (`server.js` lines 1406-1409), then decide
forbidden/attach. -/
def wsAttachKnown (sessions : List WsSession) (sid : JStr) (clientId : JStr)
    (sock : Nat) (s : WsSession) : WsOutcome :=
  if clientId ≠ [] ∧ s.clientId = [] then
    wsAttachOwned sessions sid clientId sock { s with clientId := clientId }
  else
    wsAttachOwned sessions sid clientId sock s

/-- The WebSocket connection handler registered on the server socket
(`server.js` lines 1390-1479), up to and including the attach/create
decision: cwd sandbox check, three-way session-id protocol, replay, and
session creation with a server-minted identifier `freshId`
(`generateSessionId()`). -/
def wsConnect (root : JStr) (sessions : List WsSession) (cwdParam : JStr)
    (sessionId : Option JStr) (clientId : JStr) (cols rows : Nat)
    (sock : Nat) (freshId : JStr) : WsOutcome :=
  if withinRoot root (jsResolve root cwdParam) then
    match sessionId with
    | some sid =>
      match findSession sessions sid with
      | some s => wsAttachKnown sessions sid clientId sock s
      | none => ⟨[notFoundMsg sid], true, sessions, none⟩
    | none =>
      ⟨[titleMsg freshId, sessionIdMsg freshId], false,
        sessions ++ [⟨freshId, clientId, jsResolve root cwdParam, cols, rows, [], [sock]⟩],
        some freshId⟩
  else ⟨[], true, sessions, none⟩

theorem updateSession_map_id (sessions : List WsSession) (s : WsSession) :
    (updateSession sessions s).map (fun t => t.id) = sessions.map (fun t => t.id) := by
  induction sessions with
  | nil => rfl
  | cons t rest ih =>
    simp only [updateSession, List.map_cons] at *
    by_cases h : t.id = s.id
    · simp [h, ih]
    · simp [h, ih]

theorem wsAttachOwned_createdId (sessions : List WsSession) (sid clientId : JStr)
    (sock : Nat) (s1 : WsSession) :
    (wsAttachOwned sessions sid clientId sock s1).createdId = none := by
  unfold wsAttachOwned; split <;> rfl

theorem wsAttachKnown_createdId (sessions : List WsSession) (sid clientId : JStr)
    (sock : Nat) (s : WsSession) :
    (wsAttachKnown sessions sid clientId sock s).createdId = none := by
  unfold wsAttachKnown; split <;> apply wsAttachOwned_createdId

theorem wsAttachOwned_map_id (sessions : List WsSession) (sid clientId : JStr)
    (sock : Nat) (s1 : WsSession) :
    (wsAttachOwned sessions sid clientId sock s1).sessions.map (fun t => t.id) =
      sessions.map (fun t => t.id) := by
  unfold wsAttachOwned
  split
  · rfl
  · simp [updateSession_map_id]

theorem wsAttachKnown_map_id (sessions : List WsSession) (sid clientId : JStr)
    (sock : Nat) (s : WsSession) :
    (wsAttachKnown sessions sid clientId sock s).sessions.map (fun t => t.id) =
      sessions.map (fun t => t.id) := by
  unfold wsAttachKnown; split <;> apply wsAttachOwned_map_id

/-- C4: a connection supplying a session id that is not in the registry
is answered with `SESSION_NOT_FOUND`, the socket is closed and the
registry is left untouched; a session is created only when no session id
is supplied, and the created session's identifier is always the
server-generated `freshId`, never a client-supplied value; supplying any
session id never adds a session to the registry. -/
theorem wsConnect_session_creation_policy (root : JStr) (sessions : List WsSession)
    (cwdParam clientId : JStr) (cols rows sock : Nat) (freshId : JStr) :
    (∀ sid : JStr, withinRoot root (jsResolve root cwdParam) = true →
      findSession sessions sid = none →
      wsConnect root sessions cwdParam (some sid) clientId cols rows sock freshId =
        ⟨[notFoundMsg sid], true, sessions, none⟩) ∧
      (∀ sessionId : Option JStr,
        (wsConnect root sessions cwdParam sessionId clientId cols rows sock freshId).createdId.isSome →
        sessionId = none ∧
          (wsConnect root sessions cwdParam sessionId clientId cols rows sock freshId).createdId =
            some freshId) ∧
      (∀ sid : JStr,
        ((wsConnect root sessions cwdParam (some sid) clientId cols rows sock freshId).sessions).map
            (fun s => s.id) =
          sessions.map (fun s => s.id)) := by
  refine ⟨?_, ?_, ?_⟩
  · intro sid hcwd hfind
    unfold wsConnect
    simp [hcwd, hfind]
  · intro sessionId hsome
    unfold wsConnect at hsome ⊢
    by_cases hcwd : withinRoot root (jsResolve root cwdParam)
    · cases sessionId with
      | none => simp [hcwd]
      | some sid =>
        exfalso
        simp only [hcwd, if_true, ite_true] at hsome
        rcases hfind : findSession sessions sid with _ | s
        · simp [hfind] at hsome
        · simp [hfind, wsAttachKnown_createdId] at hsome
    · simp [hcwd] at hsome
  · intro sid
    unfold wsConnect
    by_cases hcwd : withinRoot root (jsResolve root cwdParam)
    · rcases hfind : findSession sessions sid with _ | s
      · simp [hcwd, hfind]
      · simp [hcwd, hfind, wsAttachKnown_map_id]
    · simp [hcwd]

/-- C4 witness: reconnecting to the empty registry with stale id `zz`
from a valid working directory is rejected with `SESSION_NOT_FOUND`. -/
theorem wsConnect_session_creation_policy_witness :
    wsConnect "/r".toList [] ".".toList (some "zz".toList) [] 80 24 7 "f1".toList =
      ⟨[notFoundMsg "zz".toList], true, [], none⟩ :=
  (wsConnect_session_creation_policy "/r".toList [] ".".toList [] 80 24 7 "f1".toList).1
    "zz".toList (by decide) (by decide)

/-- Claim C5 as stated, at one reconnect: whenever the stored owner of
the known session differs from the supplied client id, the handler must
reply `SESSION_FORBIDDEN`, close the socket, attach nothing and deliver
no replay. -/
def claimC5Stated (root : JStr) (sessions : List WsSession) (cwdParam sid clientId : JStr)
    (cols rows sock : Nat) (freshId : JStr) : Prop :=
  match findSession sessions sid with
  | some s =>
    withinRoot root (jsResolve root cwdParam) = true → s.clientId ≠ [] →
      s.clientId ≠ clientId →
      wsConnect root sessions cwdParam (some sid) clientId cols rows sock freshId =
        ⟨[forbiddenMsg sid], true, sessions, none⟩
  | none => True

instance (root : JStr) (sessions : List WsSession) (cwdParam sid clientId : JStr)
    (cols rows sock : Nat) (freshId : JStr) :
    Decidable (claimC5Stated root sessions cwdParam sid clientId cols rows sock freshId) := by
  unfold claimC5Stated
  cases hf : findSession sessions sid <;> infer_instance

/-- C5 counterexample: session `s1` is owned by client `X`, but a
reconnect that supplies an **empty** client id (`clientId` falsy in the
source's truthiness test) is attached and receives the replay buffer,
although the owner `X` differs from the supplied id.  The stated claim
is false. -/
theorem wsConnect_empty_clientId_bypasses_owner_check :
    ¬ claimC5Stated "/r".toList
        [⟨"s1".toList, "X".toList, "/r".toList, 80, 24, "hi".toList, []⟩]
        ".".toList "s1".toList [] 80 24 7 "f1".toList := by
  decide

/-- C5 (amended): for a reconnect to a known session with a valid
working directory: a session without an owner adopts a **nonempty**
supplied client id; when both the supplied client id and the stored
owner are nonempty and differ, the server sends `SESSION_FORBIDDEN`,
closes the socket, attaches nothing and delivers no replay; otherwise —
including when the supplied client id is empty, whatever the owner — the
socket is attached, the trimmed replay buffer is sent to it byte-for-byte
in nonempty frames of at most 16384 characters, followed by the
`SESSION_ID` announcement, before any new PTY output. -/
theorem wsConnect_reconnect_protocol (root : JStr) (sessions : List WsSession)
    (cwdParam sid clientId : JStr) (cols rows sock : Nat) (freshId : JStr)
    (s : WsSession)
    (hcwd : withinRoot root (jsResolve root cwdParam) = true)
    (hfind : findSession sessions sid = some s) :
    (clientId ≠ [] → s.clientId ≠ [] → s.clientId ≠ clientId →
      wsConnect root sessions cwdParam (some sid) clientId cols rows sock freshId =
        ⟨[forbiddenMsg sid], true, sessions, none⟩) ∧
      (clientId ≠ [] → s.clientId = [] →
        wsConnect root sessions cwdParam (some sid) clientId cols rows sock freshId =
          ⟨chunksOf16k s.history ++ [sessionIdMsg s.id], false,
            updateSession sessions
              ⟨s.id, clientId, s.cwd, s.cols, s.rows, s.history, s.sockets ++ [sock]⟩, none⟩) ∧
      (clientId = [] ∨ s.clientId = clientId →
        wsConnect root sessions cwdParam (some sid) clientId cols rows sock freshId =
          ⟨chunksOf16k s.history ++ [sessionIdMsg s.id], false,
            updateSession sessions
              ⟨s.id, s.clientId, s.cwd, s.cols, s.rows, s.history, s.sockets ++ [sock]⟩, none⟩) ∧
      ((chunksOf16k s.history).flatten = s.history ∧
        ∀ c ∈ chunksOf16k s.history, c ≠ [] ∧ c.length ≤ 16384) := by
  refine ⟨?_, ?_, ?_, chunksGo_spec s.history.length s.history (Nat.le_refl _)⟩
  · intro h1 h2 h3
    unfold wsConnect wsAttachKnown wsAttachOwned
    simp only [hcwd, if_true, ite_true, hfind]
    rw [if_neg (by simp [h2]), if_pos ⟨h1, h2, h3⟩]
  · intro h1 h2
    unfold wsConnect wsAttachKnown wsAttachOwned
    simp only [hcwd, if_true, ite_true, hfind]
    rw [if_pos ⟨h1, h2⟩, if_neg (by simp)]
  · intro h
    unfold wsConnect wsAttachKnown wsAttachOwned
    simp only [hcwd, if_true, ite_true, hfind]
    rcases h with h | h
    · subst h
      rw [if_neg (by simp), if_neg (by simp)]
    · subst h
      by_cases h0 : s.clientId = []
      · rw [if_neg (by simp [h0]), if_neg (by simp [h0])]
      · rw [if_neg (by simp [h0]), if_neg (by simp)]

/-- The facts about the repository that the reset handler's external
`git` invocations observe: tool availability, repo membership, commit
validity (`cat-file -e <c>^{commit}`), the configured upstream
(`@{u}`), ancestry tests (`merge-base --is-ancestor`), and the resolved
upstream head (`rev-parse <upstream>`). -/
structure GitRepoState where
  gitAvailable : Bool
  isRepo : Bool
  isCommitObj : JStr → Bool
  upstream : Option JStr
  isAncestorOfUpstream : JStr → Bool
  isAncestorOfHead : JStr → Bool
  upstreamHead : Option JStr

/-- Outcome of `POST /api/git/reset`: either a pre-mutation rejection or
the execution of `git reset`. -/
inductive GitResetOutcome
  | rejected (msg : JStr)
  | executed (mode commit : JStr)
  deriving DecidableEq, Repr

def GitResetOutcome.isRejected : GitResetOutcome → Bool
  | .rejected _ => true
  | .executed _ _ => false

/-- The decision chain of `POST /api/git/reset` (`server.js` lines
1139-1209), after the working directory has been resolved: mode
validation, missing commit, git availability, repo membership, the
`confirmHard` gate for hard resets, commit-object validation, the
upstream requirement, reachability from `HEAD`, and the
published-history guard that only allows resetting to the exact
upstream head when the target is already on the upstream. -/
def gitResetHandler (st : GitRepoState) (mode commit : JStr) (confirmHard : Bool) :
    GitResetOutcome :=
  if mode ≠ "soft".toList ∧ mode ≠ "hard".toList then
    .rejected "mode must be soft|hard".toList
  else if commit = [] then .rejected "missing commit".toList
  else if st.gitAvailable = false then .rejected "git not available".toList
  else if st.isRepo = false then .rejected "not a git repo".toList
  else if mode = "hard".toList ∧ confirmHard = false then
    .rejected "hard reset requires confirmHard=true".toList
  else if st.isCommitObj commit = false then .rejected "invalid commit".toList
  else if st.upstream = none then .rejected "upstream not configured".toList
  else if st.isAncestorOfHead commit = false then
    .rejected "commit not reachable from HEAD".toList
  else if st.isAncestorOfUpstream commit = true then
    if st.upstreamHead = none then .rejected "cannot resolve upstream head".toList
    else if some commit ≠ st.upstreamHead then
      .rejected "only upstream head can be reset to when pushed".toList
    else .executed mode commit
  else .executed mode commit

set_option maxHeartbeats 1600000 in
theorem gitResetHandler_executed_inv (st : GitRepoState) (mode commit : JStr)
    (confirmHard : Bool) (m c : JStr)
    (h : gitResetHandler st mode commit confirmHard = .executed m c) :
    st.upstream ≠ none ∧ st.isAncestorOfHead commit = true ∧
      (st.isAncestorOfUpstream commit = true →
        ∃ hd, st.upstreamHead = some hd ∧ commit = hd) ∧
      (mode = "hard".toList → confirmHard = true) := by
  unfold gitResetHandler at h
  split at h
  · exact absurd h (by simp)
  split at h
  · exact absurd h (by simp)
  split at h
  · exact absurd h (by simp)
  split at h
  · exact absurd h (by simp)
  split at h
  case isTrue hconf => exact absurd h (by simp)
  case isFalse hconf =>
  split at h
  · exact absurd h (by simp)
  split at h
  case isTrue hup => exact absurd h (by simp)
  case isFalse hup =>
  split at h
  case isTrue hhead => exact absurd h (by simp)
  case isFalse hhead =>
  have hconfirm : mode = "hard".toList → confirmHard = true := by
    intro hmode
    by_contra hc
    exact hconf ⟨hmode, by simpa using hc⟩
  have hheadT : st.isAncestorOfHead commit = true := by
    cases hb : st.isAncestorOfHead commit
    · exact absurd hb hhead
    · rfl
  refine ⟨hup, hheadT, ?_, hconfirm⟩
  intro hanc
  rw [if_pos hanc] at h
  rcases hh : st.upstreamHead with _ | hd
  · rw [if_pos hh] at h
    exact absurd h (by simp)
  · rw [if_neg (by simp [hh])] at h
    by_cases hne : some commit ≠ st.upstreamHead
    · rw [if_pos hne] at h
      exact absurd h (by simp)
    · push_neg at hne
      rw [hh] at hne
      exact ⟨hd, rfl, Option.some.inj hne⟩

theorem gitResetOutcome_not_rejected (g : GitResetOutcome)
    (h : g.isRejected = false) : ∃ m c, g = .executed m c := by
  cases g with
  | rejected msg => simp [GitResetOutcome.isRejected] at h
  | executed m c => exact ⟨m, c, rfl⟩

/-- C3: the reset endpoint always refuses when no upstream is configured
or when the target commit is not reachable from `HEAD`; and when the
target is an ancestor of (or equal to) the upstream ref, it is refused
unless the target is exactly the current upstream head — for every mode
and even with `confirmHard = true`. -/
theorem gitResetHandler_published_guard (st : GitRepoState) (mode commit : JStr)
    (confirmHard : Bool) :
    (st.upstream = none →
      (gitResetHandler st mode commit confirmHard).isRejected = true) ∧
      (st.isAncestorOfHead commit = false →
        (gitResetHandler st mode commit confirmHard).isRejected = true) ∧
      (st.isAncestorOfUpstream commit = true → st.upstreamHead = none →
        (gitResetHandler st mode commit confirmHard).isRejected = true) ∧
      (∀ hd, st.isAncestorOfUpstream commit = true → st.upstreamHead = some hd →
        commit ≠ hd →
        (gitResetHandler st mode commit confirmHard).isRejected = true) := by
  refine ⟨?_, ?_, ?_, ?_⟩
  · intro hup
    by_contra hc
    obtain ⟨m, c, hex⟩ := gitResetOutcome_not_rejected _ (by simpa using hc)
    exact (gitResetHandler_executed_inv st mode commit confirmHard m c hex).1 hup
  · intro hhead
    by_contra hc
    obtain ⟨m, c, hex⟩ := gitResetOutcome_not_rejected _ (by simpa using hc)
    have := (gitResetHandler_executed_inv st mode commit confirmHard m c hex).2.1
    rw [hhead] at this
    exact Bool.false_ne_true this
  · intro hanc hh
    by_contra hc
    obtain ⟨m, c, hex⟩ := gitResetOutcome_not_rejected _ (by simpa using hc)
    obtain ⟨hd, hhd, _⟩ :=
      (gitResetHandler_executed_inv st mode commit confirmHard m c hex).2.2.1 hanc
    rw [hh] at hhd
    exact Option.noConfusion hhd
  · intro hd hanc hh hne
    by_contra hc
    obtain ⟨m, c, hex⟩ := gitResetOutcome_not_rejected _ (by simpa using hc)
    obtain ⟨hd2, hhd2, heq⟩ :=
      (gitResetHandler_executed_inv st mode commit confirmHard m c hex).2.2.1 hanc
    rw [hh] at hhd2
    exact hne (heq.trans (Option.some.inj hhd2).symm)

/-- C3 witness: commit `c1` is on the upstream but is not the upstream
head `c2`; a hard reset with `confirmHard = true` is still rejected. -/
theorem gitResetHandler_published_guard_witness :
    (gitResetHandler
        ⟨true, true, fun _ => true, some "origin/main".toList,
          fun _ => true, fun _ => true, some "c2".toList⟩
        "hard".toList "c1".toList true).isRejected = true :=
  (gitResetHandler_published_guard
      ⟨true, true, fun _ => true, some "origin/main".toList,
        fun _ => true, fun _ => true, some "c2".toList⟩
      "hard".toList "c1".toList true).2.2.2 "c2".toList rfl rfl (by decide)

/-- A chunk of the incoming request byte stream. -/
abbrev ByteChunk := List Nat

/-- State of `streamToFileWithLimit` when the stream settles: whether it
completed within the limit, and the bytes written to the temp file up to
that point. -/
structure StreamOutcome where
  ok : Bool
  written : ByteChunk
  deriving DecidableEq, Repr

/-- The data/end event loop of
`streamToFileWithLimit` (`server.js` lines 329-372): each chunk first
bumps the cumulative count; a chunk that pushes it past the limit is not
written and destroys the stream; otherwise it is appended and the loop
continues. -/
def streamGo (limitBytes : Nat) : List ByteChunk → ByteChunk → StreamOutcome
  | [], acc => ⟨true, acc⟩
  | c :: rest, acc =>
    if acc.length + c.length > limitBytes then ⟨false, acc⟩
    else streamGo limitBytes rest (acc ++ c)

/-- Model: `streamToFileWithLimit(req, tmpPath, limitBytes)` over the list of
chunks the request delivers. -/
def streamToFileWithLimit (chunks : List ByteChunk) (limitBytes : Nat) : StreamOutcome :=
  streamGo limitBytes chunks []

/-- Observable outcome of `POST /api/upload-raw`: HTTP status, residual
temp-file content (none once deleted or renamed), and the target file's
content afterwards. -/
structure UploadOutcome where
  status : Nat
  tmpContent : Option ByteChunk
  targetContent : Option ByteChunk
  deriving DecidableEq, Repr

/-- Model: `POST /api/upload-raw` (`server.js` lines 537-581), after directory
and name validation: refuse to overwrite without the flag, stream to the
temp file, then rename atomically on success or delete the temp file and
answer 413 on `payload too large`. -/
def uploadRawHandler (prevTarget : Option ByteChunk) (overwrite : Bool)
    (chunks : List ByteChunk) (limitBytes : Nat) : UploadOutcome :=
  if prevTarget.isSome ∧ overwrite = false then ⟨409, none, prevTarget⟩
  else
    if (streamToFileWithLimit chunks limitBytes).ok then
      ⟨200, none, some (streamToFileWithLimit chunks limitBytes).written⟩
    else ⟨413, none, prevTarget⟩

theorem streamGo_spec (limitBytes : Nat) :
    ∀ (chunks : List ByteChunk) (acc : ByteChunk), acc.length ≤ limitBytes →
      ((streamGo limitBytes chunks acc).ok = true ↔
        acc.length + (chunks.map List.length).sum ≤ limitBytes) ∧
        ((streamGo limitBytes chunks acc).ok = true →
          (streamGo limitBytes chunks acc).written = acc ++ chunks.flatten) ∧
        (streamGo limitBytes chunks acc).written.length ≤ limitBytes ∧
        ∃ pre, (streamGo limitBytes chunks acc).written = acc ++ pre ∧
          pre <+: chunks.flatten := by
  intro chunks
  induction chunks with
  | nil =>
    intro acc hacc
    refine ⟨by simpa [streamGo] using hacc, by simp [streamGo],
      by simpa [streamGo] using hacc, [], by simp [streamGo], List.nil_prefix⟩
  | cons c rest ih =>
    intro acc hacc
    by_cases hover : acc.length + c.length > limitBytes
    · refine ⟨?_, ?_, ?_, [], ?_, List.nil_prefix⟩
      · simp only [streamGo, if_pos hover, List.map_cons, List.sum_cons]
        constructor
        · intro hfalse; exact absurd hfalse (by simp)
        · intro hle; omega
      · intro hok
        rw [streamGo, if_pos hover] at hok
        exact absurd hok (by simp)
      · simpa [streamGo, if_pos hover] using hacc
      · simp [streamGo, if_pos hover]
    · push_neg at hover
      have hacc2 : (acc ++ c).length ≤ limitBytes := by
        simp only [List.length_append]; omega
      obtain ⟨hiff, hwr, hlen, pre, hpre, hpfx⟩ := ih (acc ++ c) hacc2
      have hred : streamGo limitBytes (c :: rest) acc = streamGo limitBytes rest (acc ++ c) := by
        rw [streamGo, if_neg (by omega)]
      refine ⟨?_, ?_, ?_, c ++ pre, ?_, ?_⟩
      · rw [hred, hiff]
        simp only [List.length_append, List.map_cons, List.sum_cons]
        omega
      · intro hok
        rw [hred] at hok ⊢
        rw [hwr hok]
        simp
      · rw [hred]; exact hlen
      · rw [hred, hpre, List.append_assoc]
      · obtain ⟨t, ht⟩ := hpfx
        exact ⟨t, by simp [List.flatten_cons, ← ht]⟩

/-- C6: if the cumulative size of the streamed chunks stays within the
limit, the upload succeeds and the target file holds exactly the
uploaded bytes (renamed over from the temp file); the moment the
cumulative size exceeds the limit the request fails with 413, no
residual temp file remains, the target is untouched, and the bytes that
transiently reached the temp file are a prefix of the stream never
exceeding the limit — no byte of the over-limit tail is written. -/
theorem uploadRawHandler_limit_spec (prevTarget : Option ByteChunk) (overwrite : Bool)
    (chunks : List ByteChunk) (limitBytes : Nat)
    (hfree : prevTarget = none ∨ overwrite = true) :
    ((chunks.map List.length).sum ≤ limitBytes →
      uploadRawHandler prevTarget overwrite chunks limitBytes =
        ⟨200, none, some chunks.flatten⟩) ∧
      (limitBytes < (chunks.map List.length).sum →
        uploadRawHandler prevTarget overwrite chunks limitBytes =
            ⟨413, none, prevTarget⟩ ∧
          (streamToFileWithLimit chunks limitBytes).written.length ≤ limitBytes ∧
          (streamToFileWithLimit chunks limitBytes).written <+: chunks.flatten) := by
  have h409 : ¬ (prevTarget.isSome ∧ overwrite = false) := by
    rcases hfree with h | h <;> simp [h]
  obtain ⟨hiff, hwr, hlen, pre, hpre, hpfx⟩ :=
    streamGo_spec limitBytes chunks [] (Nat.zero_le _)
  constructor
  · intro hle
    have hok : (streamToFileWithLimit chunks limitBytes).ok = true := by
      unfold streamToFileWithLimit
      rw [hiff]
      simpa using hle
    have hw := hwr hok
    unfold uploadRawHandler
    rw [if_neg h409, if_pos hok]
    unfold streamToFileWithLimit at hw ⊢
    rw [hw]
    simp
  · intro hgt
    have hok : (streamToFileWithLimit chunks limitBytes).ok = false := by
      unfold streamToFileWithLimit
      cases hb : (streamGo limitBytes chunks []).ok
      · rfl
      · rw [hiff] at hb; omega
    refine ⟨?_, hlen, ?_⟩
    · unfold uploadRawHandler
      rw [if_neg h409, hok]
      simp
    · unfold streamToFileWithLimit
      rw [hpre]
      simpa using hpfx

/-- C6 witness: limit 1 byte — the stream `[2], [3]` exceeds the limit
at the second chunk and fails with 413 leaving no temp file, while the
stream `[2]` fits and the target reads back exactly `[2]`. -/
theorem uploadRawHandler_limit_spec_witness :
    uploadRawHandler none false [[2], [3]] 1 = ⟨413, none, none⟩ ∧
      uploadRawHandler none false [[2]] 1 = ⟨200, none, some [2]⟩ :=
  ⟨((uploadRawHandler_limit_spec none false [[2], [3]] 1 (Or.inl rfl)).2 (by decide)).1,
    (uploadRawHandler_limit_spec none false [[2]] 1 (Or.inl rfl)).1 (by decide)⟩

/-- Model: `MAX_TEXT_FILE_BYTES` (`server.js` line 303): the 2 MB ceiling for
text-file reads and writes. -/
def maxTextFileBytes : Nat := 2 * 1024 * 1024

/-- Result of `fs.statSync` as seen by the text-file write handler. -/
structure FileStat where
  isFile : Bool
  size : Nat
  mtimeMs : ℚ
  deriving DecidableEq

/-- A mutation the write handler performs on the filesystem, in order. -/
inductive FsAction
  | mkdirParents (dir : JStr)
  | writeTmp (tmp : JStr) (bytes : ByteChunk)
  | renameFile (src dst : JStr)
  deriving DecidableEq, Repr

/-- Model: `path.dirname` of a canonical absolute path. -/
def dirname (p : JStr) : JStr := joinAbs (canonSegs p).dropLast

/-- The temp-file name `` `${target}.${pid}.tmp` `` used by the write
handler (`server.js` line 450). -/
def tmpName (target pidStr : JStr) : JStr :=
  target ++ '.' :: (pidStr ++ ".tmp".toList)

/-- Model: `PUT /api/file` (`server.js` lines 411-458): resolve the path,
enforce the byte ceiling on the new content, and for existing files the
file-kind check, the on-disk size ceiling and the optimistic-lock
comparison of `mtimeMs` with a 2 ms tolerance; new files require the
parent directory to resolve within the root, which is then created; the
write itself is temp file followed by an atomic rename.  Returns the
HTTP status and the filesystem actions performed. -/
def putFileHandler (root : JStr) (fsStat : JStr → Option FileStat) (raw : JStr)
    (content : ByteChunk) (expectedMtime : Option ℚ) (pidStr : JStr) :
    Nat × List FsAction :=
  match resolvePathFromQuery root raw with
  | .rejected _ => (403, [])
  | .resolved target =>
    if content.length > maxTextFileBytes then (413, [])
    else
      match fsStat target with
      | some st =>
        if st.isFile = false then (400, [])
        else if st.size > maxTextFileBytes then (413, [])
        else
          match expectedMtime with
          | some m =>
            if |st.mtimeMs - m| > 2 then (409, [])
            else
              (200, [.writeTmp (tmpName target pidStr) content,
                .renameFile (tmpName target pidStr) target])
          | none =>
            (200, [.writeTmp (tmpName target pidStr) content,
              .renameFile (tmpName target pidStr) target])
      | none =>
        if withinRoot root (dirname target) = false then (403, [])
        else
          (200, [.mkdirParents (dirname target),
            .writeTmp (tmpName target pidStr) content,
            .renameFile (tmpName target pidStr) target])

/-- C8: for an existing file with a supplied expected mtime differing
from the on-disk mtime by more than the 2 ms tolerance, the write fails
with 409 Conflict and performs no filesystem action; over-ceiling
content fails 413 with no action; every successful write ends with
exactly a temp-file write followed by the atomic rename onto the target;
and for a new file the parent directory is created exactly when that
parent itself resolves within the root (otherwise 403, no action). -/
theorem putFileHandler_spec (root : JStr) (fsStat : JStr → Option FileStat)
    (raw : JStr) (content : ByteChunk) (expectedMtime : Option ℚ) (pidStr : JStr)
    (target : JStr) (hres : resolvePathFromQuery root raw = .resolved target) :
    (∀ st m, fsStat target = some st → st.isFile = true →
      st.size ≤ maxTextFileBytes → content.length ≤ maxTextFileBytes →
      expectedMtime = some m → |st.mtimeMs - m| > 2 →
      putFileHandler root fsStat raw content expectedMtime pidStr = (409, [])) ∧
      (content.length > maxTextFileBytes →
        putFileHandler root fsStat raw content expectedMtime pidStr = (413, [])) ∧
      (∀ acts, putFileHandler root fsStat raw content expectedMtime pidStr = (200, acts) →
        ∃ pre, acts = pre ++ [.writeTmp (tmpName target pidStr) content,
            .renameFile (tmpName target pidStr) target] ∧
          (pre = [] ∨ pre = [.mkdirParents (dirname target)])) ∧
      (fsStat target = none → content.length ≤ maxTextFileBytes →
        (withinRoot root (dirname target) = false →
          putFileHandler root fsStat raw content expectedMtime pidStr = (403, [])) ∧
        (withinRoot root (dirname target) = true →
          putFileHandler root fsStat raw content expectedMtime pidStr =
            (200, [.mkdirParents (dirname target),
              .writeTmp (tmpName target pidStr) content,
              .renameFile (tmpName target pidStr) target]))) := by
  refine ⟨?_, ?_, ?_, ?_⟩
  · intro st m hstat hisf hsize hlen hexp hdiff
    unfold putFileHandler
    rw [hres]
    dsimp only
    simp only [hstat, hexp]
    rw [if_neg (by omega), if_neg (by simp [hisf]), if_neg (by omega), if_pos hdiff]
  · intro hbig
    unfold putFileHandler
    rw [hres]
    dsimp only
    rw [if_pos hbig]
  · intro acts h
    unfold putFileHandler at h
    rw [hres] at h
    dsimp only at h
    by_cases hbig : content.length > maxTextFileBytes
    · rw [if_pos hbig] at h
      exact absurd h (by simp)
    · rw [if_neg hbig] at h
      rcases hstat : fsStat target with _ | st
      · rw [hstat] at h
        dsimp only at h
        by_cases hpar : withinRoot root (dirname target) = false
        · rw [if_pos hpar] at h
          exact absurd h (by simp)
        · rw [if_neg hpar] at h
          rw [Prod.mk.injEq] at h
          exact ⟨[.mkdirParents (dirname target)], h.2.symm, Or.inr rfl⟩
      · rw [hstat] at h
        dsimp only at h
        by_cases hisf : st.isFile = false
        · rw [if_pos hisf] at h
          exact absurd h (by simp)
        · rw [if_neg hisf] at h
          by_cases hsz : st.size > maxTextFileBytes
          · rw [if_pos hsz] at h
            exact absurd h (by simp)
          · rw [if_neg hsz] at h
            rcases hexp : expectedMtime with _ | m
            · rw [hexp] at h
              dsimp only at h
              rw [Prod.mk.injEq] at h
              exact ⟨[], h.2.symm, Or.inl rfl⟩
            · rw [hexp] at h
              dsimp only at h
              by_cases hdiff : |st.mtimeMs - m| > 2
              · rw [if_pos hdiff] at h
                exact absurd h (by simp)
              · rw [if_neg hdiff] at h
                rw [Prod.mk.injEq] at h
                exact ⟨[], h.2.symm, Or.inl rfl⟩
  · intro hstat hlen
    constructor
    · intro hpar
      unfold putFileHandler
      rw [hres]
      dsimp only
      rw [if_neg (by omega)]
      simp only [hstat]
      rw [if_pos hpar]
    · intro hpar
      unfold putFileHandler
      rw [hres]
      dsimp only
      rw [if_neg (by omega)]
      simp only [hstat]
      rw [if_neg (by simp [hpar])]

/-- C8 witness: writing to `/r/f` (on-disk mtime 5 ms) with expected
mtime 10 ms — beyond the 2 ms tolerance — fails with 409 Conflict and
performs no filesystem action. -/
theorem putFileHandler_spec_witness :
    putFileHandler "/r".toList
        (fun p => if p == "/r/f".toList then some ⟨true, 10, 5⟩ else none)
        "f".toList [1, 2] (some 10) "99".toList = (409, []) :=
  (putFileHandler_spec "/r".toList
      (fun p => if p == "/r/f".toList then some ⟨true, 10, 5⟩ else none)
      "f".toList [1, 2] (some 10) "99".toList "/r/f".toList (by decide)).1
    ⟨true, 10, 5⟩ 10 (by decide) rfl (by decide) (by decide) rfl (by norm_num)

/-- Is `c` one of the whitespace characters removed by
`String.prototype.trim`? (ASCII subset.) -/
def isJsWs (c : Char) : Bool :=
  c = ' ' ∨ c = '\t' ∨ c = '\n' ∨ c = '\r' ∨ c = '\x0b' ∨ c = '\x0c'

/-- Model: `raw.trim()`. -/
def jsTrim (s : JStr) : JStr :=
  ((s.dropWhile isJsWs).reverse.dropWhile isJsWs).reverse

/-- Nonempty segments of a path (`rel.split(path.sep).filter(Boolean)`). -/
def segsOf (p : JStr) : List JStr := (splitSlash p).filter (· ≠ ([] : JStr))

/-- Remove the longest common leading run of two segment lists. -/
def dropCommonSegs : List JStr → List JStr → List JStr × List JStr
  | a :: as, b :: bs => if a = b then dropCommonSegs as bs else (a :: as, b :: bs)
  | as, bs => (as, bs)

/-- Node `path.relative(fromP, toP)` on canonical absolute paths: strip
the common prefix, then `..` for each remaining source segment followed
by the remaining target segments. -/
def jsRelative (fromP toP : JStr) : JStr :=
  joinSegs ((dropCommonSegs (segsOf fromP) (segsOf toP)).1.map (fun _ => "..".toList) ++
    (dropCommonSegs (segsOf fromP) (segsOf toP)).2)

/-- Model: `p.startsWith('.')`. -/
def startsWithDot : JStr → Bool
  | '.' :: _ => true
  | _ => false

/-- The hidden-segment test of `resolveCwdFromReq` (`server.js` lines
962-965): some nonempty segment of the relative path starts with `'.'`
and is neither `.` nor `..`. -/
def hasHiddenSeg (rel : JStr) : Bool :=
  (segsOf rel).any (fun p => startsWithDot p ∧ p ≠ ['.'] ∧ p ≠ ['.', '.'])

/-- Result of `resolveCwdFromReq`. -/
inductive CwdResult
  | rejected (error : JStr)
  | resolved (cwd : JStr)
  deriving DecidableEq, Repr

/-- Model: `resolveCwdFromReq` from `server.js` lines 956-968: refuse the raw
path `.` (the configured root itself), resolve against the root and
refuse escapes, then refuse any working directory whose path relative to
the root contains a hidden segment. -/
def resolveCwdFromReq (root raw : JStr) : CwdResult :=
  if jsTrim raw = ['.'] then .rejected "forbidden at root".toList
  else if withinRoot root (jsResolve root raw) then
    if hasHiddenSeg (jsRelative (canonAbs root) (jsResolve root raw)) then
      .rejected "forbidden in hidden dir".toList
    else .resolved (jsResolve root raw)
  else .rejected "out of root".toList

/-- Observable behaviour of one git HTTP endpoint: response status, the
error message (empty on success), and how many external git commands
were invoked. -/
structure GitHttpResponse where
  status : Nat
  errMsg : JStr
  gitCalls : Nat
  deriving DecidableEq, Repr

/-- Model: `GET /api/git/info` (`server.js` lines 1010-1019): resolve the
working directory first and return 403 before any git invocation on
failure; `k` is the remainder of the handler. -/
def gitInfoEndpoint (root raw : JStr) (k : JStr → GitHttpResponse) : GitHttpResponse :=
  match resolveCwdFromReq root raw with
  | .rejected e => ⟨403, e, 0⟩
  | .resolved cwd => k cwd

/-- Model: `GET /api/git/commits` (`server.js` lines 1021-1113): same guard. -/
def gitCommitsEndpoint (root raw : JStr) (k : JStr → GitHttpResponse) : GitHttpResponse :=
  match resolveCwdFromReq root raw with
  | .rejected e => ⟨403, e, 0⟩
  | .resolved cwd => k cwd

/-- Model: `POST /api/git/init` (`server.js` lines 1115-1137): same guard. -/
def gitInitEndpoint (root raw : JStr) (k : JStr → GitHttpResponse) : GitHttpResponse :=
  match resolveCwdFromReq root raw with
  | .rejected e => ⟨403, e, 0⟩
  | .resolved cwd => k cwd

/-- Model: `POST /api/git/reset` (`server.js` lines 1139-1141): same guard. -/
def gitResetEndpoint (root raw : JStr) (k : JStr → GitHttpResponse) : GitHttpResponse :=
  match resolveCwdFromReq root raw with
  | .rejected e => ⟨403, e, 0⟩
  | .resolved cwd => k cwd

/-- Model: `POST /api/git/revert` (`server.js` lines 1211-1213): same guard. -/
def gitRevertEndpoint (root raw : JStr) (k : JStr → GitHttpResponse) : GitHttpResponse :=
  match resolveCwdFromReq root raw with
  | .rejected e => ⟨403, e, 0⟩
  | .resolved cwd => k cwd

/-- C10: every git endpoint rejects the configured root itself (raw path
`.`, after trimming) with the distinct error `forbidden at root`, and
rejects an in-root working directory whose path relative to the root
contains a hidden segment with the distinct error
`forbidden in hidden dir`; in every rejected case all five endpoints
return HTTP 403 without invoking a single external git command,
whatever the rest of the handler would do. -/
theorem resolveCwdFromReq_guards (root raw : JStr) :
    (jsTrim raw = ['.'] →
      resolveCwdFromReq root raw = .rejected "forbidden at root".toList) ∧
      (jsTrim raw ≠ ['.'] → withinRoot root (jsResolve root raw) = true →
        hasHiddenSeg (jsRelative (canonAbs root) (jsResolve root raw)) = true →
        resolveCwdFromReq root raw = .rejected "forbidden in hidden dir".toList) ∧
      (∀ e : JStr, ∀ k₁ k₂ k₃ k₄ k₅ : JStr → GitHttpResponse,
        resolveCwdFromReq root raw = .rejected e →
        gitInfoEndpoint root raw k₁ = ⟨403, e, 0⟩ ∧
          gitCommitsEndpoint root raw k₂ = ⟨403, e, 0⟩ ∧
          gitInitEndpoint root raw k₃ = ⟨403, e, 0⟩ ∧
          gitResetEndpoint root raw k₄ = ⟨403, e, 0⟩ ∧
          gitRevertEndpoint root raw k₅ = ⟨403, e, 0⟩) := by
  refine ⟨?_, ?_, ?_⟩
  · intro h
    unfold resolveCwdFromReq
    rw [if_pos h]
  · intro h1 h2 h3
    unfold resolveCwdFromReq
    rw [if_neg h1, if_pos h2, if_pos h3]
  · intro e k₁ k₂ k₃ k₄ k₅ h
    unfold gitInfoEndpoint gitCommitsEndpoint gitInitEndpoint gitResetEndpoint gitRevertEndpoint
    rw [h]
    exact ⟨rfl, rfl, rfl, rfl, rfl⟩

/-- C10 witness: under root `/r`, the raw cwd `.` is rejected as
`forbidden at root` and the raw cwd `.git/hooks` as
`forbidden in hidden dir`, each before any git call. -/
theorem resolveCwdFromReq_guards_witness :
    resolveCwdFromReq "/r".toList ".".toList = .rejected "forbidden at root".toList ∧
      resolveCwdFromReq "/r".toList ".git/hooks".toList =
        .rejected "forbidden in hidden dir".toList ∧
      gitInfoEndpoint "/r".toList ".".toList (fun _ => ⟨200, [], 1⟩) =
        ⟨403, "forbidden at root".toList, 0⟩ := by
  refine ⟨(resolveCwdFromReq_guards "/r".toList ".".toList).1 (by decide),
    (resolveCwdFromReq_guards "/r".toList ".git/hooks".toList).2.1 (by decide)
      (by decide) (by decide), ?_⟩
  exact (((resolveCwdFromReq_guards "/r".toList ".".toList).2.2 "forbidden at root".toList
    (fun _ => ⟨200, [], 1⟩) (fun _ => ⟨200, [], 1⟩) (fun _ => ⟨200, [], 1⟩)
    (fun _ => ⟨200, [], 1⟩) (fun _ => ⟨200, [], 1⟩)
    ((resolveCwdFromReq_guards "/r".toList ".".toList).1 (by decide)))).1

/-- Model: `isRootPath` from `server.js` lines 660-668: is the resolved target
the configured root itself? -/
def isRootPath (root p : JStr) : Bool := canonAbs p = canonAbs root

/-- Observable behaviour of `POST /api/fs/delete`: status, error message
and the paths removed from disk. -/
structure DeleteOutcome where
  status : Nat
  errMsg : JStr
  removed : List JStr
  deriving DecidableEq, Repr

/-- Model: `POST /api/fs/delete` (`server.js` lines 829-842).  The request body
carries only `path` — the handler has **no** confirmation input; the
source comments that second confirmation is the front end's job and the
server only enforces path and root protection.  `onDisk` tells whether
the resolved target exists (`statSync` succeeding). -/
def fsDeleteHandler (root : JStr) (onDisk : JStr → Bool) (raw : JStr) : DeleteOutcome :=
  match resolvePathFromQuery root raw with
  | .rejected e => ⟨403, e, []⟩
  | .resolved target =>
    if isRootPath root target then ⟨403, "forbidden at root".toList, []⟩
    else if onDisk target then ⟨200, [], [target]⟩
    else ⟨500, "delete failed".toList, []⟩

/-- Claim C9 as stated: both destructive operations demand explicit
confirmation at the server boundary — a hard reset without
`confirmHard` is rejected, and a delete request removes nothing without
explicit confirmation.  Since the delete request carries no confirmation
field at all, the latter says a delete request never removes anything. -/
def claimC9Stated (root : JStr) : Prop :=
  (∀ (st : GitRepoState) (commit : JStr) (confirmHard : Bool), confirmHard = false →
    (gitResetHandler st "hard".toList commit confirmHard).isRejected = true) ∧
    (∀ (onDisk : JStr → Bool) (raw : JStr), (fsDeleteHandler root onDisk raw).removed = [])

/-- C9 counterexample: deleting `f` under root `/r` removes `/r/f`
although the request carries no confirmation of any kind — the server
boundary enforces no confirmation for delete (it is delegated to the
client), so the stated claim is false. -/
theorem fsDeleteHandler_removes_without_confirmation :
    ¬ claimC9Stated "/r".toList := by
  intro h
  have hdel := h.2 (fun p => p == "/r/f".toList) "f".toList
  exact absurd hdel (by decide)

/-- C9 (amended): a reset with mode `hard` is rejected whenever
`confirmHard` is false; delete is forbidden when the target is the
configured root itself; but delete requires no server-side confirmation —
any other valid, existing target is removed directly (confirmation is
delegated to the client). -/
theorem destructive_boundary_protection (root : JStr) :
    (∀ (st : GitRepoState) (commit : JStr),
      (gitResetHandler st "hard".toList commit false).isRejected = true) ∧
      (∀ (onDisk : JStr → Bool) (raw target : JStr),
        resolvePathFromQuery root raw = .resolved target →
        isRootPath root target = true →
        fsDeleteHandler root onDisk raw = ⟨403, "forbidden at root".toList, []⟩) ∧
      (∀ (onDisk : JStr → Bool) (raw target : JStr),
        resolvePathFromQuery root raw = .resolved target →
        isRootPath root target = false → onDisk target = true →
        fsDeleteHandler root onDisk raw = ⟨200, [], [target]⟩) := by
  refine ⟨?_, ?_, ?_⟩
  · intro st commit
    by_contra hc
    obtain ⟨m, c, hex⟩ := gitResetOutcome_not_rejected _ (by simpa using hc)
    have := (gitResetHandler_executed_inv st "hard".toList commit false m c hex).2.2.2 rfl
    exact Bool.false_ne_true this
  · intro onDisk raw target hres hroot
    unfold fsDeleteHandler
    rw [hres]
    simp [hroot]
  · intro onDisk raw target hres hroot hdisk
    unfold fsDeleteHandler
    rw [hres]
    simp [hroot, hdisk]

/-- C9 amended-theorem witness: a hard reset without confirmation is
rejected on a concrete repository, and deleting the raw path `.`
(resolving to the root `/r` itself) is refused. -/
theorem destructive_boundary_protection_witness :
    (gitResetHandler
        ⟨true, true, fun _ => true, some "origin/main".toList,
          fun _ => false, fun _ => true, some "c2".toList⟩
        "hard".toList "c1".toList false).isRejected = true ∧
      fsDeleteHandler "/r".toList (fun _ => true) "x/..".toList =
        ⟨403, "forbidden at root".toList, []⟩ :=
  ⟨(destructive_boundary_protection "/r".toList).1
      ⟨true, true, fun _ => true, some "origin/main".toList,
        fun _ => false, fun _ => true, some "c2".toList⟩ "c1".toList,
    (destructive_boundary_protection "/r".toList).2.1 (fun _ => true)
      "x/..".toList "/r".toList (by decide) (by decide)⟩

/-- C5 amended-theorem witness: session `s1` owned by `X`; a reconnect
supplying client id `Y` is rejected with `SESSION_FORBIDDEN` and no
replay, and the replay buffer `hi` of the session round-trips through
the chunking. -/
theorem wsConnect_reconnect_protocol_witness :
    wsConnect "/r".toList
        [⟨"s1".toList, "X".toList, "/r".toList, 80, 24, "hi".toList, []⟩]
        ".".toList (some "s1".toList) "Y".toList 80 24 7 "f1".toList =
      ⟨[forbiddenMsg "s1".toList], true,
        [⟨"s1".toList, "X".toList, "/r".toList, 80, 24, "hi".toList, []⟩], none⟩ :=
  (wsConnect_reconnect_protocol "/r".toList
      [⟨"s1".toList, "X".toList, "/r".toList, 80, 24, "hi".toList, []⟩]
      ".".toList "s1".toList "Y".toList 80 24 7 "f1".toList
      ⟨"s1".toList, "X".toList, "/r".toList, 80, 24, "hi".toList, []⟩
      (by decide) (by decide)).1 (by decide) (by decide) (by decide)
